import Mathlib

/-!
Verification of the expense-tracker aggregation subsystem.

This file gives a shallow embedding of the aggregation handlers of the
repository — getExpenseSummary, getCategoryTotals and getMonthlySummaries —
and proves the specified properties about them.

Modelling conventions:
* Monetary amounts are rational numbers (the schema stores numeric(10,2)
  decimals; the handlers convert them with parseFloat and add them).
* A JavaScript Date is modelled as a calendar tuple DateT; Date.getTime
  comparisons are modelled by the mixed-radix encoding DateT.ts, which is
  order-isomorphic to the real timestamp on valid calendar tuples.
* The database table is a list of expense rows; a SELECT with a WHERE
  clause is List.filter, and SQL GROUP BY queries are modelled by
  enumerating the grouping keys (the group order of an SQL GROUP BY
  without ORDER BY is unspecified; the handlers sort their results
  themselves afterwards, so the modelled order is irrelevant).
* Array.prototype.sort with a comparator is modelled by
  List.insertionSort on the relation "comparator result is nonpositive"
  (both are stable sorts of the same list by the same relation).
* Calls of new Date() are modelled by an explicit now : DateT parameter
  giving the invocation time.
-/

namespace ExpenseTracker

/-- The expense_category enum of db/schema.ts: eat, shop, subscription, others. -/
inductive ExpenseCategory where
  | eat
  | shop
  | subscription
  | others
deriving DecidableEq, Repr

/-- The payment_method enum of db/schema.ts. -/
inductive PaymentMethod where
  | cash
  | card
  | bank_transfer
  | digital_wallet
  | check
  | others
deriving DecidableEq, Repr

/-- Calendar date-time at millisecond precision (a JavaScript Date /
Postgres timestamp value). month is 1..12 as in Postgres EXTRACT. -/
@[ext]
structure DateT where
  year : Int
  month : Int
  day : Int
  hour : Int
  minute : Int
  second : Int
  ms : Int
deriving DecidableEq, Repr

/-- Mixed-radix encoding of a calendar tuple. On valid calendar values
(month ≤ 12, day ≤ 31, hour < 24, minute < 60, second < 60, ms < 1000)
this is strictly monotone in calendar order, so comparisons of DateT.ts
model comparisons of Date.getTime / SQL timestamp comparisons. -/
def DateT.ts (d : DateT) : Int :=
  (((((d.year * 13 + d.month) * 32 + d.day) * 24 + d.hour) * 60
      + d.minute) * 60 + d.second) * 1000 + d.ms

/-- One row of the expenses table (db/schema.ts). -/
@[ext]
structure Expense where
  id : Int
  amount : ℚ
  date : DateT
  description : String
  category : ExpenseCategory
  payment_method : PaymentMethod
  created_at : DateT
  updated_at : DateT
deriving DecidableEq, Repr

/-- summaryInputSchema: the optional filter of getExpenseSummary. -/
@[ext]
structure SummaryInput where
  start_date : Option DateT
  end_date : Option DateT
  category : Option ExpenseCategory
  payment_method : Option PaymentMethod
deriving DecidableEq, Repr

/-- A total_amount / count pair, as used in the breakdown records. -/
@[ext]
structure Stats where
  total_amount : ℚ
  count : Nat
deriving DecidableEq, Repr

/-- The period object of an expense summary. -/
@[ext]
structure Period where
  start_date : DateT
  end_date : DateT
deriving DecidableEq, Repr

/-- The result type of getExpenseSummary. The by_category and
by_payment_method records of the handler contain only the keys that were
inserted, so they are modelled as maps into Option Stats (none = key
absent from the record). -/
structure ExpenseSummary where
  total_amount : ℚ
  total_count : Nat
  average_amount : ℚ
  by_category : ExpenseCategory → Option Stats
  by_payment_method : PaymentMethod → Option Stats
  period : Period

/-- Sum of the amount fields, mirroring
reduce((sum, expense) => sum + expense.amount, 0). -/
def sumAmount (es : List Expense) : ℚ :=
  es.foldl (fun sum e => sum + e.amount) 0

/-- The conditions array built by getExpenseSummary (handler lines 27-44):
one predicate is pushed for each provided filter field, in source order
gte(date, start), lte(date, end), eq(category), eq(payment_method). -/
def pushIf {β : Type} (conditions : List (Expense → Bool)) (o : Option β)
    (mk : β → Expense → Bool) : List (Expense → Bool) :=
  match o with
  | some b => conditions ++ [mk b]
  | none => conditions

def summaryConditions (input : Option SummaryInput) : List (Expense → Bool) :=
  let conditions : List (Expense → Bool) := []
  let conditions := pushIf conditions (input.bind SummaryInput.start_date)
    (fun d e => decide (d.ts ≤ e.date.ts))
  let conditions := pushIf conditions (input.bind SummaryInput.end_date)
    (fun d e => decide (e.date.ts ≤ d.ts))
  let conditions := pushIf conditions (input.bind SummaryInput.category)
    (fun c e => decide (e.category = c))
  let conditions := pushIf conditions (input.bind SummaryInput.payment_method)
    (fun p e => decide (e.payment_method = p))
  conditions

/-- The SELECT of getExpenseSummary: with a nonempty conditions array the
query carries where(and(...conditions)), otherwise no WHERE clause. -/
def selectSummary (store : List Expense) (input : Option SummaryInput) : List Expense :=
  let conditions := summaryConditions input
  if conditions.length > 0 then
    store.filter (fun e => conditions.all (fun cond => cond e))
  else
    store

/-- One step of the forEach loop building a breakdown record: initialise
the key with zeroes if absent, then add the amount and bump the count. -/
def updateBreakdown {α : Type} [DecidableEq α]
    (m : α → Option Stats) (key : α) (amt : ℚ) : α → Option Stats :=
  fun k =>
    if k = key then
      match m key with
      | none => some { total_amount := 0 + amt, count := 0 + 1 }
      | some s => some { total_amount := s.total_amount + amt, count := s.count + 1 }
    else m k

/-- The forEach loop of getExpenseSummary building by_category /
by_payment_method, starting from the empty record. -/
def buildBreakdown {α : Type} [DecidableEq α]
    (keyOf : Expense → α) (es : List Expense) : α → Option Stats :=
  es.foldl (fun m e => updateBreakdown m (keyOf e) e.amount) (fun _ => none)

/-- Math.min over Date.getTime values, elementwise. -/
def dateMin (a b : DateT) : DateT := if b.ts < a.ts then b else a

/-- Math.max over Date.getTime values, elementwise. -/
def dateMax (a b : DateT) : DateT := if a.ts < b.ts then b else a

/-- getExpenseSummary (handler of part_005, lines 24-114), as a pure
function of the store snapshot, the optional filter, and the invocation
time now (the value of new Date() during the call). -/
def getExpenseSummary (store : List Expense) (input : Option SummaryInput)
    (now : DateT) : ExpenseSummary :=
  let processedExpenses := selectSummary store input
  let total_amount := sumAmount processedExpenses
  let total_count := processedExpenses.length
  let average_amount := if total_count > 0 then total_amount / (total_count : ℚ) else 0
  let by_category := buildBreakdown Expense.category processedExpenses
  let by_payment_method := buildBreakdown Expense.payment_method processedExpenses
  let period : Period :=
    match processedExpenses with
    | [] =>
        { start_date := (input.bind SummaryInput.start_date).getD now,
          end_date := (input.bind SummaryInput.end_date).getD now }
    | e :: rest =>
        { start_date := (rest.map Expense.date).foldl dateMin e.date,
          end_date := (rest.map Expense.date).foldl dateMax e.date }
  { total_amount := total_amount, total_count := total_count,
    average_amount := average_amount, by_category := by_category,
    by_payment_method := by_payment_method, period := period }

/-- State-passing form of the handler: its only database operation is the
SELECT, so the invocation returns the result together with the store it
leaves behind, which is the store it was given. -/
def getExpenseSummaryEff (store : List Expense) (input : Option SummaryInput)
    (now : DateT) : ExpenseSummary × List Expense :=
  (getExpenseSummary store input now, store)

/-- Follows the claim wording for the selected set of a summary filter:
category equality, payment-method equality, and the date lying within the
inclusive start_date / end_date bounds; omitted fields impose no
constraint and the predicates are combined with AND. (Written here in the
order start, end, category, payment method; AND is commutative.) -/
def specMatches (input : Option SummaryInput) (e : Expense) : Bool :=
  (match input.bind SummaryInput.start_date with
    | some d => decide (d.ts ≤ e.date.ts)
    | none => true) &&
  (match input.bind SummaryInput.end_date with
    | some d => decide (e.date.ts ≤ d.ts)
    | none => true) &&
  (match input.bind SummaryInput.category with
    | some c => decide (e.category = c)
    | none => true) &&
  (match input.bind SummaryInput.payment_method with
    | some p => decide (e.payment_method = p)
    | none => true)

lemma sumAmount_foldl (es : List Expense) (a : ℚ) :
    es.foldl (fun sum e => sum + e.amount) a = a + sumAmount es := by
  induction es generalizing a with
  | nil => simp [sumAmount]
  | cons x l ih =>
      simp only [List.foldl_cons, sumAmount]
      rw [ih, ih (0 + x.amount)]
      ring

lemma sumAmount_nil : sumAmount [] = 0 := rfl

lemma sumAmount_cons (x : Expense) (l : List Expense) :
    sumAmount (x :: l) = x.amount + sumAmount l := by
  show List.foldl (fun sum e => sum + e.amount) (0 + x.amount) l = x.amount + sumAmount l
  rw [sumAmount_foldl]
  ring

lemma sumAmount_eq_map_sum (es : List Expense) :
    sumAmount es = (es.map Expense.amount).sum := by
  induction es with
  | nil => simp [sumAmount]
  | cons x l ih => simp [sumAmount_cons, ih]

/-- The conjunction of the handler's condition array agrees pointwise with
the predicate described by the specification. -/
lemma summaryConditions_all (input : Option SummaryInput) (x : Expense) :
    (summaryConditions input).all (fun cond => cond x) = specMatches input x := by
  rcases input with _ | i
  · simp [summaryConditions, specMatches, pushIf]
  · rcases i with ⟨s, e, c, p⟩
    rcases s with _ | sd <;> rcases e with _ | ed <;>
      rcases c with _ | cc <;> rcases p with _ | pp <;>
      simp [summaryConditions, specMatches, pushIf, Bool.and_assoc]

lemma selectSummary_eq_filter_all (store : List Expense) (input : Option SummaryInput) :
    selectSummary store input
      = store.filter (fun e => (summaryConditions input).all (fun cond => cond e)) := by
  unfold selectSummary
  by_cases h : 0 < (summaryConditions input).length
  · rw [if_pos h]
  · rw [if_neg h]
    have hnil : summaryConditions input = [] :=
      List.eq_nil_of_length_eq_zero (by omega)
    rw [hnil]
    simp

/-- The SELECT of getExpenseSummary keeps exactly the rows matching every
provided filter predicate. -/
lemma selectSummary_eq_filter (store : List Expense) (input : Option SummaryInput) :
    selectSummary store input = store.filter (specMatches input) := by
  rw [selectSummary_eq_filter_all]
  apply List.filter_congr
  intro x _
  exact summaryConditions_all input x

/-- The category enum values, in the order of the pgEnum declaration. -/
def allCategories : List ExpenseCategory :=
  [ExpenseCategory.eat, ExpenseCategory.shop,
   ExpenseCategory.subscription, ExpenseCategory.others]

/-- The payment-method enum values, in the order of the pgEnum declaration. -/
def allPaymentMethods : List PaymentMethod :=
  [PaymentMethod.cash, PaymentMethod.card, PaymentMethod.bank_transfer,
   PaymentMethod.digital_wallet, PaymentMethod.check, PaymentMethod.others]

/-- total_amount of a possibly-absent breakdown entry (0 when absent). -/
def optTotal (o : Option Stats) : ℚ := (o.map Stats.total_amount).getD 0

/-- count of a possibly-absent breakdown entry (0 when absent). -/
def optCount (o : Option Stats) : Nat := (o.map Stats.count).getD 0

lemma updateBreakdown_self {α : Type} [DecidableEq α]
    (m : α → Option Stats) (key : α) (amt : ℚ) :
    optTotal (updateBreakdown m key amt key) = optTotal (m key) + amt
      ∧ optCount (updateBreakdown m key amt key) = optCount (m key) + 1 := by
  unfold updateBreakdown optTotal optCount
  rcases m key with _ | s <;> simp

lemma updateBreakdown_other {α : Type} [DecidableEq α]
    (m : α → Option Stats) (key : α) (amt : ℚ) (k : α) (h : k ≠ key) :
    updateBreakdown m key amt k = m k := by
  unfold updateBreakdown
  simp [h]

lemma sum_optTotal_update {α : Type} [DecidableEq α]
    (m : α → Option Stats) (key : α) (amt : ℚ) (keys : List α)
    (hmem : key ∈ keys) (hnd : keys.Nodup) :
    (keys.map (fun k => optTotal (updateBreakdown m key amt k))).sum
      = (keys.map (fun k => optTotal (m k))).sum + amt := by
  induction keys with
  | nil => cases hmem
  | cons k ks ih =>
      rcases List.nodup_cons.mp hnd with ⟨hk, hnd'⟩
      rcases List.mem_cons.mp hmem with h | h
      · subst h
        have htail : ks.map (fun j => optTotal (updateBreakdown m key amt j))
            = ks.map (fun j => optTotal (m j)) := by
          apply List.map_congr_left
          intro j hj
          rw [updateBreakdown_other m key amt j (by rintro rfl; exact hk hj)]
        simp only [List.map_cons, List.sum_cons, htail,
          (updateBreakdown_self m key amt).1]
        ring
      · have hne : k ≠ key := by rintro rfl; exact hk h
        rw [List.map_cons, List.sum_cons, updateBreakdown_other m key amt k hne,
          ih h hnd', List.map_cons, List.sum_cons]
        ring

lemma sum_optCount_update {α : Type} [DecidableEq α]
    (m : α → Option Stats) (key : α) (amt : ℚ) (keys : List α)
    (hmem : key ∈ keys) (hnd : keys.Nodup) :
    (keys.map (fun k => optCount (updateBreakdown m key amt k))).sum
      = (keys.map (fun k => optCount (m k))).sum + 1 := by
  induction keys with
  | nil => cases hmem
  | cons k ks ih =>
      rcases List.nodup_cons.mp hnd with ⟨hk, hnd'⟩
      rcases List.mem_cons.mp hmem with h | h
      · subst h
        have htail : ks.map (fun j => optCount (updateBreakdown m key amt j))
            = ks.map (fun j => optCount (m j)) := by
          apply List.map_congr_left
          intro j hj
          rw [updateBreakdown_other m key amt j (by rintro rfl; exact hk hj)]
        simp only [List.map_cons, List.sum_cons, htail,
          (updateBreakdown_self m key amt).2]
        omega
      · have hne : k ≠ key := by rintro rfl; exact hk h
        rw [List.map_cons, List.sum_cons, updateBreakdown_other m key amt k hne,
          ih h hnd', List.map_cons, List.sum_cons]
        omega

lemma buildBreakdown_foldl_total {α : Type} [DecidableEq α]
    (keyOf : Expense → α) (keys : List α) (hnd : keys.Nodup)
    (hcov : ∀ e : Expense, keyOf e ∈ keys) (es : List Expense)
    (m : α → Option Stats) :
    (keys.map (fun k =>
        optTotal ((es.foldl (fun acc e => updateBreakdown acc (keyOf e) e.amount) m) k))).sum
      = (keys.map (fun k => optTotal (m k))).sum + sumAmount es := by
  induction es generalizing m with
  | nil => simp [sumAmount]
  | cons x l ih =>
      rw [List.foldl_cons, ih, sum_optTotal_update m (keyOf x) x.amount keys (hcov x) hnd,
        sumAmount_cons]
      ring

lemma buildBreakdown_foldl_count {α : Type} [DecidableEq α]
    (keyOf : Expense → α) (keys : List α) (hnd : keys.Nodup)
    (hcov : ∀ e : Expense, keyOf e ∈ keys) (es : List Expense)
    (m : α → Option Stats) :
    (keys.map (fun k =>
        optCount ((es.foldl (fun acc e => updateBreakdown acc (keyOf e) e.amount) m) k))).sum
      = (keys.map (fun k => optCount (m k))).sum + es.length := by
  induction es generalizing m with
  | nil => simp
  | cons x l ih =>
      rw [List.foldl_cons, ih, sum_optCount_update m (keyOf x) x.amount keys (hcov x) hnd]
      simp only [List.length_cons]
      omega

lemma buildBreakdown_sum_total {α : Type} [DecidableEq α]
    (keyOf : Expense → α) (keys : List α) (hnd : keys.Nodup)
    (hcov : ∀ e : Expense, keyOf e ∈ keys) (es : List Expense) :
    (keys.map (fun k => optTotal (buildBreakdown keyOf es k))).sum = sumAmount es := by
  unfold buildBreakdown
  rw [buildBreakdown_foldl_total keyOf keys hnd hcov es (fun _ => none)]
  simp [optTotal]

lemma buildBreakdown_sum_count {α : Type} [DecidableEq α]
    (keyOf : Expense → α) (keys : List α) (hnd : keys.Nodup)
    (hcov : ∀ e : Expense, keyOf e ∈ keys) (es : List Expense) :
    (keys.map (fun k => optCount (buildBreakdown keyOf es k))).sum = es.length := by
  unfold buildBreakdown
  rw [buildBreakdown_foldl_count keyOf keys hnd hcov es (fun _ => none)]
  simp [optCount]

lemma summary_total_amount (store : List Expense) (input : Option SummaryInput)
    (now : DateT) :
    (getExpenseSummary store input now).total_amount
      = sumAmount (selectSummary store input) := rfl

lemma summary_total_count (store : List Expense) (input : Option SummaryInput)
    (now : DateT) :
    (getExpenseSummary store input now).total_count
      = (selectSummary store input).length := rfl

lemma summary_average_amount (store : List Expense) (input : Option SummaryInput)
    (now : DateT) :
    (getExpenseSummary store input now).average_amount
      = (if (selectSummary store input).length > 0 then
          sumAmount (selectSummary store input) / ((selectSummary store input).length : ℚ)
        else 0) := rfl

lemma summary_by_category (store : List Expense) (input : Option SummaryInput)
    (now : DateT) :
    (getExpenseSummary store input now).by_category
      = buildBreakdown Expense.category (selectSummary store input) := rfl

lemma summary_by_payment_method (store : List Expense) (input : Option SummaryInput)
    (now : DateT) :
    (getExpenseSummary store input now).by_payment_method
      = buildBreakdown Expense.payment_method (selectSummary store input) := rfl

lemma foldl_dateMin_mem (d : DateT) (ds : List DateT) :
    ds.foldl dateMin d ∈ d :: ds := by
  induction ds generalizing d with
  | nil => simp
  | cons x l ih =>
      have h := ih (dateMin d x)
      have hdm : dateMin d x = x ∨ dateMin d x = d := by
        unfold dateMin
        by_cases hlt : x.ts < d.ts <;> simp [hlt]
      rcases List.mem_cons.mp h with h1 | h1
      · rcases hdm with h2 | h2 <;> rw [List.foldl_cons, h1, h2] <;> simp
      · rw [List.foldl_cons]
        exact List.mem_cons_of_mem _ (List.mem_cons_of_mem _ h1)

lemma foldl_dateMin_le (d : DateT) (ds : List DateT) :
    (ds.foldl dateMin d).ts ≤ d.ts ∧ ∀ x ∈ ds, (ds.foldl dateMin d).ts ≤ x.ts := by
  induction ds generalizing d with
  | nil => simp
  | cons x l ih =>
      have h := ih (dateMin d x)
      have hd : (dateMin d x).ts ≤ d.ts ∧ (dateMin d x).ts ≤ x.ts := by
        unfold dateMin
        by_cases hlt : x.ts < d.ts <;> simp [hlt] <;> omega
      refine ⟨le_trans h.1 hd.1, ?_⟩
      intro y hy
      rcases List.mem_cons.mp hy with h1 | h1
      · rw [List.foldl_cons, h1]
        exact le_trans h.1 hd.2
      · rw [List.foldl_cons]
        exact h.2 y h1

lemma foldl_dateMax_mem (d : DateT) (ds : List DateT) :
    ds.foldl dateMax d ∈ d :: ds := by
  induction ds generalizing d with
  | nil => simp
  | cons x l ih =>
      have h := ih (dateMax d x)
      have hdm : dateMax d x = x ∨ dateMax d x = d := by
        unfold dateMax
        by_cases hlt : d.ts < x.ts <;> simp [hlt]
      rcases List.mem_cons.mp h with h1 | h1
      · rcases hdm with h2 | h2 <;> rw [List.foldl_cons, h1, h2] <;> simp
      · rw [List.foldl_cons]
        exact List.mem_cons_of_mem _ (List.mem_cons_of_mem _ h1)

lemma foldl_dateMax_ge (d : DateT) (ds : List DateT) :
    d.ts ≤ (ds.foldl dateMax d).ts ∧ ∀ x ∈ ds, x.ts ≤ (ds.foldl dateMax d).ts := by
  induction ds generalizing d with
  | nil => simp
  | cons x l ih =>
      have h := ih (dateMax d x)
      have hd : d.ts ≤ (dateMax d x).ts ∧ x.ts ≤ (dateMax d x).ts := by
        unfold dateMax
        by_cases hlt : d.ts < x.ts <;> simp [hlt] <;> omega
      refine ⟨le_trans hd.1 h.1, ?_⟩
      intro y hy
      rcases List.mem_cons.mp hy with h1 | h1
      · rw [List.foldl_cons, h1]
        exact le_trans hd.2 h.1
      · rw [List.foldl_cons]
        exact h.2 y h1

/-- Midnight of a calendar day, a convenience constructor for fixtures. -/
def mkDate (y mo d : Int) : DateT :=
  { year := y, month := mo, day := d, hour := 0, minute := 0, second := 0, ms := 0 }

/-- Fixture from the spec's concrete scenario: 25.50, eat, card, 2024-01-15. -/
def exEat : Expense :=
  { id := 1, amount := 51/2, date := mkDate 2024 1 15, description := "lunch",
    category := ExpenseCategory.eat, payment_method := PaymentMethod.card,
    created_at := mkDate 2024 1 15, updated_at := mkDate 2024 1 15 }

/-- Fixture from the spec's concrete scenario: 100.00, shop, cash, 2024-01-16. -/
def exShop : Expense :=
  { id := 2, amount := 100, date := mkDate 2024 1 16, description := "shoes",
    category := ExpenseCategory.shop, payment_method := PaymentMethod.cash,
    created_at := mkDate 2024 1 16, updated_at := mkDate 2024 1 16 }

/-- Fixture from the spec's concrete scenario: 9.99, subscription, card, 2024-01-17. -/
def exSub : Expense :=
  { id := 3, amount := 999/100, date := mkDate 2024 1 17, description := "streaming",
    category := ExpenseCategory.subscription, payment_method := PaymentMethod.card,
    created_at := mkDate 2024 1 17, updated_at := mkDate 2024 1 17 }

def sampleStore : List Expense := [exEat, exShop, exSub]

def nowA : DateT :=
  { year := 2024, month := 6, day := 1, hour := 12, minute := 0, second := 0, ms := 0 }

def nowB : DateT :=
  { year := 2024, month := 6, day := 1, hour := 12, minute := 0, second := 0, ms := 1 }

/-- C1: for every store snapshot and every summary filter, getExpenseSummary
returns total_amount equal to the sum of amount over exactly the stored
expenses satisfying every provided predicate (category equality,
payment-method equality, inclusive date bounds; omitted fields impose no
constraint, predicates combined with AND), and total_count equal to the
number of those expenses. -/
theorem claim_sum_consistency (store : List Expense) (input : Option SummaryInput)
    (now : DateT) :
    (getExpenseSummary store input now).total_amount
        = ((store.filter (specMatches input)).map Expense.amount).sum
      ∧ (getExpenseSummary store input now).total_count
        = (store.filter (specMatches input)).length := by
  constructor
  · rw [summary_total_amount, selectSummary_eq_filter, sumAmount_eq_map_sum]
  · rw [summary_total_count, selectSummary_eq_filter]

/-- C2: when the selected set is empty, getExpenseSummary returns zero
totals, zero average and empty breakdown records; when it is non-empty,
average_amount is total_amount divided by total_count. -/
theorem claim_empty_zero_and_average (store : List Expense)
    (input : Option SummaryInput) (now : DateT) :
    (store.filter (specMatches input) = [] →
        (getExpenseSummary store input now).total_amount = 0
      ∧ (getExpenseSummary store input now).total_count = 0
      ∧ (getExpenseSummary store input now).average_amount = 0
      ∧ (getExpenseSummary store input now).by_category = (fun _ => none)
      ∧ (getExpenseSummary store input now).by_payment_method = (fun _ => none))
    ∧ (store.filter (specMatches input) ≠ [] →
        (getExpenseSummary store input now).average_amount
          = (getExpenseSummary store input now).total_amount
            / ((getExpenseSummary store input now).total_count : ℚ)) := by
  have hsel := selectSummary_eq_filter store input
  constructor
  · intro h
    have hempty : selectSummary store input = [] := hsel.trans h
    refine ⟨?_, ?_, ?_, ?_, ?_⟩
    · rw [summary_total_amount, hempty, sumAmount_nil]
    · rw [summary_total_count, hempty, List.length_nil]
    · rw [summary_average_amount, hempty]
      simp
    · rw [summary_by_category, hempty]
      rfl
    · rw [summary_by_payment_method, hempty]
      rfl
  · intro h
    have hne : selectSummary store input ≠ [] := by rw [hsel]; exact h
    have hlen : (selectSummary store input).length > 0 :=
      List.length_pos.mpr hne
    rw [summary_average_amount, summary_total_amount, summary_total_count,
      if_pos hlen]

theorem claim_empty_zero_and_average_witness :
    ((getExpenseSummary ([] : List Expense) none nowA).total_amount = 0
      ∧ (getExpenseSummary ([] : List Expense) none nowA).total_count = 0
      ∧ (getExpenseSummary ([] : List Expense) none nowA).average_amount = 0
      ∧ (getExpenseSummary ([] : List Expense) none nowA).by_category = (fun _ => none)
      ∧ (getExpenseSummary ([] : List Expense) none nowA).by_payment_method = (fun _ => none))
    ∧ (getExpenseSummary sampleStore none nowA).average_amount
        = (getExpenseSummary sampleStore none nowA).total_amount
          / ((getExpenseSummary sampleStore none nowA).total_count : ℚ) :=
  ⟨(claim_empty_zero_and_average [] none nowA).1 rfl,
   (claim_empty_zero_and_average sampleStore none nowA).2 (by decide)⟩

/-- C6: if the selected set is non-empty, the period bounds are the
minimum and maximum date values actually present in the selected set;
if it is empty, they fall back to the filter's start_date / end_date when
given, else to the invocation time. Date comparisons are timestamp
comparisons (DateT.ts). -/
theorem claim_period_bounds (store : List Expense) (input : Option SummaryInput)
    (now : DateT) :
    (store.filter (specMatches input) ≠ [] →
        ((getExpenseSummary store input now).period.start_date
            ∈ (store.filter (specMatches input)).map Expense.date
          ∧ (∀ d ∈ (store.filter (specMatches input)).map Expense.date,
              (getExpenseSummary store input now).period.start_date.ts ≤ d.ts)
          ∧ (getExpenseSummary store input now).period.end_date
            ∈ (store.filter (specMatches input)).map Expense.date
          ∧ (∀ d ∈ (store.filter (specMatches input)).map Expense.date,
              d.ts ≤ (getExpenseSummary store input now).period.end_date.ts)))
    ∧ (store.filter (specMatches input) = [] →
        (getExpenseSummary store input now).period.start_date
            = (input.bind SummaryInput.start_date).getD now
          ∧ (getExpenseSummary store input now).period.end_date
            = (input.bind SummaryInput.end_date).getD now) := by
  have hsel := selectSummary_eq_filter store input
  constructor
  · intro hne
    rcases hlist : selectSummary store input with _ | ⟨e, rest⟩
    · exact absurd (hsel.symm.trans hlist) hne
    have hper : (getExpenseSummary store input now).period
        = { start_date := (rest.map Expense.date).foldl dateMin e.date,
            end_date := (rest.map Expense.date).foldl dateMax e.date } := by
      unfold getExpenseSummary
      rw [hlist]
    have hmap : (store.filter (specMatches input)).map Expense.date
        = e.date :: rest.map Expense.date := by
      rw [← hsel, hlist, List.map_cons]
    rw [hper, hmap]
    refine ⟨foldl_dateMin_mem e.date (rest.map Expense.date), ?_,
      foldl_dateMax_mem e.date (rest.map Expense.date), ?_⟩
    · intro d hd
      rcases List.mem_cons.mp hd with h1 | h1
      · rw [h1]
        exact (foldl_dateMin_le e.date (rest.map Expense.date)).1
      · exact (foldl_dateMin_le e.date (rest.map Expense.date)).2 d h1
    · intro d hd
      rcases List.mem_cons.mp hd with h1 | h1
      · rw [h1]
        exact (foldl_dateMax_ge e.date (rest.map Expense.date)).1
      · exact (foldl_dateMax_ge e.date (rest.map Expense.date)).2 d h1
  · intro h
    have hempty : selectSummary store input = [] := hsel.trans h
    have hper : (getExpenseSummary store input now).period
        = { start_date := (input.bind SummaryInput.start_date).getD now,
            end_date := (input.bind SummaryInput.end_date).getD now } := by
      unfold getExpenseSummary
      rw [hempty]
    rw [hper]
    exact ⟨rfl, rfl⟩

theorem claim_period_bounds_witness :
    ((getExpenseSummary sampleStore none nowA).period.start_date
        ∈ (sampleStore.filter (specMatches none)).map Expense.date
      ∧ (∀ d ∈ (sampleStore.filter (specMatches none)).map Expense.date,
          (getExpenseSummary sampleStore none nowA).period.start_date.ts ≤ d.ts)
      ∧ (getExpenseSummary sampleStore none nowA).period.end_date
        ∈ (sampleStore.filter (specMatches none)).map Expense.date
      ∧ (∀ d ∈ (sampleStore.filter (specMatches none)).map Expense.date,
          d.ts ≤ (getExpenseSummary sampleStore none nowA).period.end_date.ts))
    ∧ ((getExpenseSummary ([] : List Expense) none nowA).period.start_date = nowA
      ∧ (getExpenseSummary ([] : List Expense) none nowA).period.end_date = nowA) :=
  ⟨(claim_period_bounds sampleStore none nowA).1 (by decide),
   (claim_period_bounds [] none nowA).2 rfl⟩

/-- C9 counterexample: with an empty store and no filter, the summary
depends on the invocation time, so two invocations of the handler over the
same snapshot and filter need not return identical results. -/
theorem claim_determinism_counterexample :
    getExpenseSummary ([] : List Expense) none nowA
      ≠ getExpenseSummary ([] : List Expense) none nowB := by
  intro h
  have e₁ : (getExpenseSummary ([] : List Expense) none nowA).period.start_date
      = nowA := rfl
  have e₂ : (getExpenseSummary ([] : List Expense) none nowB).period.start_date
      = nowB := rfl
  have h2 := congrArg (fun s => s.period.start_date) h
  simp only at h2
  rw [e₁, e₂] at h2
  exact absurd h2 (by decide)

/-- C9 amended: the invocation has no side effect on the store, and the
result is determined by the snapshot, the filter, and the invocation time;
the invocation time is irrelevant whenever the selected set is non-empty,
or the filter provides both date bounds. -/
theorem claim_determinism_amended (store : List Expense)
    (input : Option SummaryInput) (now now' : DateT) :
    getExpenseSummaryEff store input now = (getExpenseSummary store input now, store)
    ∧ (store.filter (specMatches input) ≠ [] →
        getExpenseSummary store input now = getExpenseSummary store input now')
    ∧ ((input.bind SummaryInput.start_date).isSome
        ∧ (input.bind SummaryInput.end_date).isSome →
        getExpenseSummary store input now = getExpenseSummary store input now') := by
  have hsel := selectSummary_eq_filter store input
  refine ⟨rfl, ?_, ?_⟩
  · intro hne
    rcases hlist : selectSummary store input with _ | ⟨e, rest⟩
    · exact absurd (hsel.symm.trans hlist) hne
    unfold getExpenseSummary
    rw [hlist]
  · rintro ⟨h1, h2⟩
    rcases hlist : selectSummary store input with _ | ⟨e, rest⟩
    · obtain ⟨sd, hsd⟩ := Option.isSome_iff_exists.mp h1
      obtain ⟨ed, hed⟩ := Option.isSome_iff_exists.mp h2
      unfold getExpenseSummary
      rw [hlist, hsd, hed]
      rfl
    · unfold getExpenseSummary
      rw [hlist]

/-- A filter fixture providing both date bounds. -/
def bothDatesInput : SummaryInput :=
  { start_date := some nowA, end_date := some nowA,
    category := none, payment_method := none }

theorem claim_determinism_amended_witness :
    getExpenseSummaryEff sampleStore none nowA
        = (getExpenseSummary sampleStore none nowA, sampleStore)
    ∧ getExpenseSummary sampleStore none nowA
        = getExpenseSummary sampleStore none nowB
    ∧ getExpenseSummary ([] : List Expense) (some bothDatesInput) nowA
        = getExpenseSummary ([] : List Expense) (some bothDatesInput) nowB :=
  ⟨(claim_determinism_amended sampleStore none nowA nowB).1,
   (claim_determinism_amended sampleStore none nowA nowB).2.1 (by decide),
   (claim_determinism_amended [] (some bothDatesInput) nowA nowB).2.2 ⟨rfl, rfl⟩⟩

/-- C10: the by_category record of getExpenseSummary sums (over all enum
keys, absent keys counting 0) to the top-level total_amount and
total_count, and the same holds for by_payment_method. -/
theorem claim_breakdown_totals_consistent (store : List Expense)
    (input : Option SummaryInput) (now : DateT) :
    ((allCategories.map (fun k =>
         optTotal ((getExpenseSummary store input now).by_category k))).sum
        = (getExpenseSummary store input now).total_amount
      ∧ (allCategories.map (fun k =>
         optCount ((getExpenseSummary store input now).by_category k))).sum
        = (getExpenseSummary store input now).total_count)
    ∧ ((allPaymentMethods.map (fun k =>
         optTotal ((getExpenseSummary store input now).by_payment_method k))).sum
        = (getExpenseSummary store input now).total_amount
      ∧ (allPaymentMethods.map (fun k =>
         optCount ((getExpenseSummary store input now).by_payment_method k))).sum
        = (getExpenseSummary store input now).total_count) := by
  have hndC : allCategories.Nodup := by decide
  have hcovC : ∀ e : Expense, e.category ∈ allCategories := by
    intro e
    cases e.category <;> decide
  have hndP : allPaymentMethods.Nodup := by decide
  have hcovP : ∀ e : Expense, e.payment_method ∈ allPaymentMethods := by
    intro e
    cases e.payment_method <;> decide
  refine ⟨⟨?_, ?_⟩, ?_, ?_⟩
  · rw [summary_by_category, summary_total_amount]
    exact buildBreakdown_sum_total Expense.category allCategories hndC hcovC _
  · rw [summary_by_category, summary_total_count]
    exact buildBreakdown_sum_count Expense.category allCategories hndC hcovC _
  · rw [summary_by_payment_method, summary_total_amount]
    exact buildBreakdown_sum_total Expense.payment_method allPaymentMethods hndP hcovP _
  · rw [summary_by_payment_method, summary_total_count]
    exact buildBreakdown_sum_count Expense.payment_method allPaymentMethods hndP hcovP _

/-- The conditions array of getCategoryTotals (part_007 lines 130-138):
gte(date, startDate) and lte(date, endDate), each pushed when provided. -/
def dateConditions (startDate endDate : Option DateT) : List (Expense → Bool) :=
  let conditions : List (Expense → Bool) := []
  let conditions := pushIf conditions startDate (fun d e => decide (d.ts ≤ e.date.ts))
  let conditions := pushIf conditions endDate (fun d e => decide (e.date.ts ≤ d.ts))
  conditions

/-- The WHERE clause applied by both queries of getCategoryTotals: the AND
of the date conditions when any is present, else no restriction. -/
def selectByDate (store : List Expense) (startDate endDate : Option DateT) :
    List Expense :=
  let conditions := dateConditions startDate endDate
  if conditions.length > 0 then
    store.filter (fun e => conditions.all (fun cond => cond e))
  else
    store

/-- Follows the claim wording for the date filter of getCategoryTotals:
inclusive bounds, each independently optional. -/
def specDateMatches (startDate endDate : Option DateT) (e : Expense) : Bool :=
  (match startDate with
    | some d => decide (d.ts ≤ e.date.ts)
    | none => true) &&
  (match endDate with
    | some d => decide (e.date.ts ≤ d.ts)
    | none => true)

lemma dateConditions_all (startDate endDate : Option DateT) (x : Expense) :
    (dateConditions startDate endDate).all (fun cond => cond x)
      = specDateMatches startDate endDate x := by
  rcases startDate with _ | sd <;> rcases endDate with _ | ed <;>
    simp [dateConditions, specDateMatches, pushIf]

/-- The SELECT of getCategoryTotals keeps exactly the rows inside the
inclusive date bounds. -/
lemma selectByDate_eq_filter (store : List Expense) (startDate endDate : Option DateT) :
    selectByDate store startDate endDate
      = store.filter (specDateMatches startDate endDate) := by
  unfold selectByDate
  by_cases h : 0 < (dateConditions startDate endDate).length
  · rw [if_pos h]
    apply List.filter_congr
    intro x _
    exact dateConditions_all startDate endDate x
  · rw [if_neg h]
    have hnil : dateConditions startDate endDate = [] :=
      List.eq_nil_of_length_eq_zero (by omega)
    have : ∀ x ∈ store, specDateMatches startDate endDate x = true := by
      intro x _
      rw [← dateConditions_all startDate endDate x, hnil]
      rfl
    exact (List.filter_eq_self.mpr this).symm

/-- The SQL query grouping by category (part_007 lines 141-153): one row
per category present in the filtered rows, carrying sum(amount) and
count(*). GROUP BY without ORDER BY leaves the group order unspecified;
it is modelled in enum-declaration order (the handler sorts the mapped
result afterwards, so this order is irrelevant). -/
def categoryRows (es : List Expense) : List (ExpenseCategory × ℚ × Nat) :=
  (allCategories.filter (fun c => es.any (fun e => decide (e.category = c)))).map
    (fun c => (c, sumAmount (es.filter (fun e => decide (e.category = c))),
               (es.filter (fun e => decide (e.category = c))).length))

/-- The CategoryTotal interface of part_007. -/
@[ext]
structure CategoryTotal where
  category : ExpenseCategory
  total_amount : ℚ
  count : Nat
  percentage : ℚ
deriving DecidableEq, Repr

/-- Math.round(x * 100) / 100, rounding to 2 decimal places. Math.round
rounds half towards positive infinity, which is Mathlib's round. -/
def round2 (x : ℚ) : ℚ := ((round (x * 100) : ℤ) : ℚ) / 100

/-- The comparator (a, b) => b.total_amount - a.total_amount accepts a
before b exactly when b.total_amount ≤ a.total_amount. -/
def ctGE (a b : CategoryTotal) : Prop := b.total_amount ≤ a.total_amount

instance : DecidableRel ctGE := fun a b =>
  inferInstanceAs (Decidable (b.total_amount ≤ a.total_amount))

instance : IsTotal CategoryTotal ctGE :=
  ⟨fun a b => (le_total b.total_amount a.total_amount).imp id id⟩

instance : IsTrans CategoryTotal ctGE :=
  ⟨fun _ _ _ h1 h2 => le_trans h2 h1⟩

/-- getCategoryTotals (part_007 lines 127-191) as a pure function. The
grand total query runs the same WHERE clause over the table; parseFloat of
the possibly NULL sum (|| fallback to the string 0) is the plain sum,
which is 0 for an empty selection. -/
def getCategoryTotals (store : List Expense) (startDate endDate : Option DateT) :
    List CategoryTotal :=
  let filtered := selectByDate store startDate endDate
  let categoryResults := categoryRows filtered
  let grandTotal := sumAmount filtered
  let categoryTotals := categoryResults.map (fun r =>
    { category := r.1, total_amount := r.2.1, count := r.2.2,
      percentage := round2 (if grandTotal > 0 then r.2.1 / grandTotal * 100 else 0)
      : CategoryTotal })
  List.insertionSort ctGE categoryTotals

lemma sumAmount_nonneg (es : List Expense) (h : ∀ x ∈ es, 0 < x.amount) :
    0 ≤ sumAmount es := by
  induction es with
  | nil => simp [sumAmount]
  | cons x l ih =>
      rw [sumAmount_cons]
      have hx := h x (List.mem_cons_self x l)
      have hl := ih (fun y hy => h y (List.mem_cons_of_mem x hy))
      linarith

lemma sumAmount_pos (es : List Expense) (hne : es ≠ [])
    (h : ∀ x ∈ es, 0 < x.amount) : 0 < sumAmount es := by
  rcases es with _ | ⟨x, l⟩
  · exact absurd rfl hne
  · rw [sumAmount_cons]
    have hx := h x (List.mem_cons_self x l)
    have hl := sumAmount_nonneg l (fun y hy => h y (List.mem_cons_of_mem x hy))
    linarith

/-- Partition of the amount sum by category: summing the per-category
sums over the four enum values recovers the total. -/
lemma partitionAmount (es : List Expense) :
    (allCategories.map
        (fun c => sumAmount (es.filter (fun e => decide (e.category = c))))).sum
      = sumAmount es := by
  induction es with
  | nil => simp [allCategories, sumAmount]
  | cons x l ih =>
      have hsplit : ∀ c : ExpenseCategory,
          sumAmount ((x :: l).filter (fun e => decide (e.category = c)))
            = (if x.category = c then x.amount else 0)
              + sumAmount (l.filter (fun e => decide (e.category = c))) := by
        intro c
        by_cases hc : x.category = c
        · rw [List.filter_cons_of_pos (by simpa using hc), sumAmount_cons, if_pos hc]
        · rw [List.filter_cons_of_neg (by simpa using hc), if_neg hc]
          ring
      rw [sumAmount_cons, ← ih]
      simp only [allCategories, List.map_cons, List.map_nil, List.sum_cons,
        List.sum_nil, hsplit]
      cases hx : x.category <;> simp [hx] <;> ring

/-- Partition of the row count by category. -/
lemma partitionCount (es : List Expense) :
    (allCategories.map
        (fun c => (es.filter (fun e => decide (e.category = c))).length)).sum
      = es.length := by
  induction es with
  | nil => simp [allCategories]
  | cons x l ih =>
      have hsplit : ∀ c : ExpenseCategory,
          ((x :: l).filter (fun e => decide (e.category = c))).length
            = (if x.category = c then 1 else 0)
              + (l.filter (fun e => decide (e.category = c))).length := by
        intro c
        by_cases hc : x.category = c
        · rw [List.filter_cons_of_pos (by simpa using hc), List.length_cons, if_pos hc]
          omega
        · rw [List.filter_cons_of_neg (by simpa using hc), if_neg hc]
          omega
      rw [List.length_cons, ← ih]
      simp only [allCategories, List.map_cons, List.map_nil, List.sum_cons,
        List.sum_nil, hsplit]
      cases hx : x.category <;> simp [hx] <;> omega

/-- Dropping list entries on which the summand vanishes keeps the sum. -/
lemma sum_map_filter_of_zero {α : Type} (p : α → Bool) (f : α → ℚ) (l : List α)
    (h : ∀ c ∈ l, p c = false → f c = 0) :
    ((l.filter p).map f).sum = (l.map f).sum := by
  induction l with
  | nil => simp
  | cons x t ih =>
      have ht := ih (fun c hc => h c (List.mem_cons_of_mem x hc))
      by_cases hx : p x
      · rw [List.filter_cons_of_pos hx]
        simp [ht]
      · rw [List.filter_cons_of_neg hx]
        rw [List.map_cons, List.sum_cons, h x (List.mem_cons_self x t) (by simpa using hx), ht]
        ring

/-- Rounding to 2 decimals moves a rational by at most 1/200. -/
lemma round2_close (x : ℚ) : |round2 x - x| ≤ 1 / 200 := by
  have h := abs_sub_round (x * 100)
  have h100 : |(100 : ℚ)| = 100 := by norm_num
  have hcalc : round2 x - x = -((x * 100 - (round (x * 100) : ℚ)) / 100) := by
    unfold round2
    ring
  rw [hcalc, abs_neg, abs_div, h100]
  linarith

lemma sum_round2_approx (l : List ℚ) :
    |(l.map round2).sum - l.sum| ≤ (l.length : ℚ) * (1 / 200) := by
  induction l with
  | nil => simp
  | cons x t ih =>
      have hx := round2_close x
      have habs : |(round2 x + (t.map round2).sum) - (x + t.sum)|
          ≤ |round2 x - x| + |(t.map round2).sum - t.sum| := by
        have : (round2 x + (t.map round2).sum) - (x + t.sum)
            = (round2 x - x) + ((t.map round2).sum - t.sum) := by ring
        rw [this]
        exact abs_add _ _
      simp only [List.map_cons, List.sum_cons, List.length_cons]
      push_cast
      calc |(round2 x + (t.map round2).sum) - (x + t.sum)|
          ≤ |round2 x - x| + |(t.map round2).sum - t.sum| := habs
        _ ≤ 1 / 200 + (t.length : ℚ) * (1 / 200) := by
            have := ih
            linarith
        _ = ((t.length : ℚ) + 1) * (1 / 200) := by ring

/-- Summing the per-category sums over just the categories present in the
list recovers the total: absent categories contribute zero. -/
lemma present_sum_eq (F : List Expense) :
    ((allCategories.filter (fun c => F.any (fun e => decide (e.category = c)))).map
        (fun c => sumAmount (F.filter (fun e => decide (e.category = c))))).sum
      = sumAmount F := by
  rw [sum_map_filter_of_zero _ _ _ ?_, partitionAmount]
  intro c _ hc
  have hnil : F.filter (fun e => decide (e.category = c)) = [] := by
    rw [List.filter_eq_nil_iff]
    intro a ha
    have := List.any_eq_false.mp hc a ha
    simpa using this
  rw [hnil, sumAmount_nil]

lemma getCategoryTotals_def (store : List Expense) (startDate endDate : Option DateT) :
    getCategoryTotals store startDate endDate
      = List.insertionSort ctGE ((categoryRows (selectByDate store startDate endDate)).map
          (fun r =>
            { category := r.1, total_amount := r.2.1, count := r.2.2,
              percentage := round2
                (if sumAmount (selectByDate store startDate endDate) > 0 then
                  r.2.1 / sumAmount (selectByDate store startDate endDate) * 100
                else 0) : CategoryTotal })) := rfl

/-- C4: over a store satisfying the amount-positivity invariant, every
group of a non-empty getCategoryTotals result carries percentage equal to
its share of the grand total times 100, rounded to 2 decimal places, and
the percentages sum to within 0.1 of 100. -/
theorem claim_percentage_normalization (store : List Expense)
    (startDate endDate : Option DateT)
    (hpos : ∀ x ∈ store, 0 < x.amount)
    (hne : getCategoryTotals store startDate endDate ≠ []) :
    (∀ ct ∈ getCategoryTotals store startDate endDate,
        ct.percentage
          = round2 (ct.total_amount / sumAmount (selectByDate store startDate endDate) * 100))
    ∧ |((getCategoryTotals store startDate endDate).map CategoryTotal.percentage).sum - 100|
        ≤ 1 / 10 := by
  have hFpos : ∀ x ∈ selectByDate store startDate endDate, 0 < x.amount := by
    intro x hx
    rw [selectByDate_eq_filter] at hx
    exact hpos x (List.mem_filter.mp hx).1
  have hrows : categoryRows (selectByDate store startDate endDate) ≠ [] := by
    intro h0
    apply hne
    rw [getCategoryTotals_def, h0]
    rfl
  have hFne : selectByDate store startDate endDate ≠ [] := by
    intro h0
    apply hrows
    rw [h0]
    rfl
  have hG : 0 < sumAmount (selectByDate store startDate endDate) :=
    sumAmount_pos _ hFne hFpos
  have hGne : sumAmount (selectByDate store startDate endDate) ≠ 0 := ne_of_gt hG
  constructor
  · intro ct hct
    rw [getCategoryTotals_def] at hct
    have hmem := (List.perm_insertionSort ctGE _).mem_iff.mp hct
    obtain ⟨r, _, rfl⟩ := List.mem_map.mp hmem
    show round2 (if sumAmount (selectByDate store startDate endDate) > 0 then
        r.2.1 / sumAmount (selectByDate store startDate endDate) * 100 else 0)
      = round2 (r.2.1 / sumAmount (selectByDate store startDate endDate) * 100)
    rw [if_pos hG]
  · have hperm : ((getCategoryTotals store startDate endDate).map
        CategoryTotal.percentage).sum
        = (((categoryRows (selectByDate store startDate endDate)).map
            (fun r =>
              { category := r.1, total_amount := r.2.1, count := r.2.2,
                percentage := round2
                  (if sumAmount (selectByDate store startDate endDate) > 0 then
                    r.2.1 / sumAmount (selectByDate store startDate endDate) * 100
                  else 0) : CategoryTotal })).map CategoryTotal.percentage).sum := by
      rw [getCategoryTotals_def]
      exact ((List.perm_insertionSort ctGE _).map CategoryTotal.percentage).sum_eq
    rw [hperm, List.map_map]
    have hpt : ((categoryRows (selectByDate store startDate endDate)).map
        (CategoryTotal.percentage ∘ (fun r =>
          { category := r.1, total_amount := r.2.1, count := r.2.2,
            percentage := round2
              (if sumAmount (selectByDate store startDate endDate) > 0 then
                r.2.1 / sumAmount (selectByDate store startDate endDate) * 100
              else 0) : CategoryTotal })))
        = ((categoryRows (selectByDate store startDate endDate)).map
            (fun r => r.2.1 / sumAmount (selectByDate store startDate endDate) * 100)).map
              round2 := by
      rw [List.map_map]
      apply List.map_congr_left
      intro r _
      simp only [Function.comp_apply]
      rw [if_pos hG]
    rw [hpt]
    have hsum100 : ((categoryRows (selectByDate store startDate endDate)).map
        (fun r => r.2.1 / sumAmount (selectByDate store startDate endDate) * 100)).sum
        = 100 := by
      unfold categoryRows
      rw [List.map_map]
      have hpw : ((allCategories.filter (fun c =>
            (selectByDate store startDate endDate).any
              (fun e => decide (e.category = c)))).map
          ((fun r => r.2.1 / sumAmount (selectByDate store startDate endDate) * 100)
            ∘ (fun c => (c,
                sumAmount ((selectByDate store startDate endDate).filter
                  (fun e => decide (e.category = c))),
                ((selectByDate store startDate endDate).filter
                  (fun e => decide (e.category = c))).length))))
          = (allCategories.filter (fun c =>
              (selectByDate store startDate endDate).any
                (fun e => decide (e.category = c)))).map
            (fun c =>
              sumAmount ((selectByDate store startDate endDate).filter
                (fun e => decide (e.category = c)))
                * (100 / sumAmount (selectByDate store startDate endDate))) := by
        apply List.map_congr_left
        intro c _
        simp only [Function.comp_apply]
        ring
      rw [hpw, List.sum_map_mul_right, present_sum_eq, mul_comm,
        div_mul_cancel₀ _ hGne]
    have happrox := sum_round2_approx
      ((categoryRows (selectByDate store startDate endDate)).map
        (fun r => r.2.1 / sumAmount (selectByDate store startDate endDate) * 100))
    rw [hsum100] at happrox
    have hlen : ((categoryRows (selectByDate store startDate endDate)).map
        (fun r => r.2.1 / sumAmount (selectByDate store startDate endDate) * 100)).length
        ≤ 4 := by
      rw [List.length_map]
      unfold categoryRows
      rw [List.length_map]
      exact le_trans (List.length_filter_le _ _) (by rw [allCategories]; rfl)
    have hcast : (((categoryRows (selectByDate store startDate endDate)).map
        (fun r => r.2.1 / sumAmount (selectByDate store startDate endDate) * 100)).length : ℚ)
        ≤ 4 := by exact_mod_cast hlen
    have h4 : (((categoryRows (selectByDate store startDate endDate)).map
        (fun r => r.2.1 / sumAmount (selectByDate store startDate endDate) * 100)).length : ℚ)
          * (1 / 200) ≤ 1 / 10 := by nlinarith
    linarith [happrox, h4]

lemma sampleStore_pos : ∀ x ∈ sampleStore, 0 < x.amount := by
  intro x hx
  simp only [sampleStore, List.mem_cons, List.not_mem_nil, or_false] at hx
  rcases hx with rfl | rfl | rfl <;> norm_num [exEat, exShop, exSub]

lemma sampleStore_totals_ne_nil : getCategoryTotals sampleStore none none ≠ [] := by
  intro h0
  have h1 := congrArg List.length h0
  rw [getCategoryTotals_def, List.length_insertionSort, List.length_map] at h1
  have h2 : (categoryRows (selectByDate sampleStore none none)).length = 3 := by
    show (categoryRows sampleStore).length = 3
    unfold categoryRows
    rw [List.length_map]
    decide
  rw [h2] at h1
  cases h1

theorem claim_percentage_normalization_witness :
    (∀ ct ∈ getCategoryTotals sampleStore none none,
        ct.percentage
          = round2 (ct.total_amount / sumAmount (selectByDate sampleStore none none) * 100))
    ∧ |((getCategoryTotals sampleStore none none).map CategoryTotal.percentage).sum - 100|
        ≤ 1 / 10 :=
  claim_percentage_normalization sampleStore none none sampleStore_pos
    sampleStore_totals_ne_nil

/-- C5: under the amount-positivity invariant, when no stored expense
matches the inclusive date bounds the grand total is 0 and
getCategoryTotals returns the empty result set; the guarded percentage
branch means no division by zero is performed. -/
theorem claim_no_match_empty_result (store : List Expense)
    (startDate endDate : Option DateT)
    (_hpos : ∀ x ∈ store, 0 < x.amount)
    (hempty : store.filter (specDateMatches startDate endDate) = []) :
    getCategoryTotals store startDate endDate = []
      ∧ sumAmount (selectByDate store startDate endDate) = 0 := by
  have hsel : selectByDate store startDate endDate = [] :=
    (selectByDate_eq_filter store startDate endDate).trans hempty
  constructor
  · rw [getCategoryTotals_def, hsel]
    rfl
  · rw [hsel]
    rfl

theorem claim_no_match_empty_result_witness :
    getCategoryTotals sampleStore (some (mkDate 2025 1 1)) none = []
      ∧ sumAmount (selectByDate sampleStore (some (mkDate 2025 1 1)) none) = 0 :=
  claim_no_match_empty_result sampleStore (some (mkDate 2025 1 1)) none
    sampleStore_pos (by decide)

/-- The result type of getMonthlySummaries. The CategoryBreakdown mapped
type of the handler guarantees an entry for every category, so by_category
is a total map into Stats. -/
@[ext]
structure MonthlySummary where
  year : Int
  month : Int
  total_amount : ℚ
  total_count : Nat
  by_category : ExpenseCategory → Stats

/-- new Date(targetYear, 0, 1): January 1st, midnight. -/
def yearStart (y : Int) : DateT :=
  { year := y, month := 1, day := 1, hour := 0, minute := 0, second := 0, ms := 0 }

/-- new Date(targetYear, 11, 31, 23, 59, 59): December 31st at 23:59:59
(milliseconds zero). -/
def yearEnd (y : Int) : DateT :=
  { year := y, month := 12, day := 31, hour := 23, minute := 59, second := 59, ms := 0 }

/-- The WHERE clause of the monthly query: gte(date, startDate) and
lte(date, endDate) with the bounds above. -/
def inYearRange (y : Int) (e : Expense) : Bool :=
  decide ((yearStart y).ts ≤ e.date.ts) && decide (e.date.ts ≤ (yearEnd y).ts)

/-- Grouping key of a row: EXTRACT(YEAR ...), EXTRACT(MONTH ...). -/
def inMonth (k : Int × Int) (e : Expense) : Bool :=
  decide (e.date.year = k.1) && decide (e.date.month = k.2)

/-- The (year, month) pairs occurring among the given rows. The SQL GROUP
BY produces each once, modelled by dedup (the group order is normalised
again by the final sort, so the order chosen here is irrelevant). -/
def monthKeys (es : List Expense) : List (Int × Int) :=
  (es.map (fun e => (e.date.year, e.date.month))).dedup

/-- One row of the grouped monthly query: year, month, category,
SUM(amount), COUNT(*). -/
structure MonthRow where
  year : Int
  month : Int
  category : ExpenseCategory
  total_amount : ℚ
  count : Nat
deriving DecidableEq, Repr

def rowKey (r : MonthRow) : Int × Int := (r.year, r.month)

/-- The grouped row of one (month, category) cell. -/
def mkRow (es : List Expense) (k : Int × Int) (c : ExpenseCategory) : MonthRow :=
  { year := k.1, month := k.2, category := c,
    total_amount := sumAmount (es.filter (fun e => inMonth k e && decide (e.category = c))),
    count := (es.filter (fun e => inMonth k e && decide (e.category = c))).length }

/-- The rows of one month: one row per category present in that month. -/
def monthRowsFor (es : List Expense) (k : Int × Int) : List MonthRow :=
  (allCategories.filter
      (fun c => es.any (fun e => inMonth k e && decide (e.category = c)))).map
    (mkRow es k)

/-- The full result set of the grouped monthly query (get_monthly_summaries.ts
lines 24-48): one row per (year, month, category) triple present. -/
def monthRows (es : List Expense) : List MonthRow :=
  (monthKeys es).flatMap (monthRowsFor es)

/-- createEmptyCategoryRecord of the handler: all four categories zeroed. -/
def createEmptyCategoryRecord : ExpenseCategory → Stats :=
  fun _ => { total_amount := 0, count := 0 }

/-- The empty month summary inserted when a key is first seen. -/
def freshMonthKey (k : Int × Int) : MonthlySummary :=
  { year := k.1, month := k.2, total_amount := 0, total_count := 0,
    by_category := createEmptyCategoryRecord }

/-- The mutation applied per row inside the processing loop: add the cell
amount and count to the month totals and assign the cell into the
category breakdown. -/
def applyRow (base : MonthlySummary) (r : MonthRow) : MonthlySummary :=
  { base with
    total_amount := base.total_amount + r.total_amount,
    total_count := base.total_count + r.count,
    by_category := fun c =>
      if c = r.category then { total_amount := r.total_amount, count := r.count }
      else base.by_category c }

/-- Lookup in the JS Map keyed by the year-month string (the keys in play
make the string key injective, so the pair is used directly). -/
def mapFind {β : Type} (m : List ((Int × Int) × β)) (k : Int × Int) : Option β :=
  match m with
  | [] => none
  | (k1, v) :: rest => if k1 = k then some v else mapFind rest k

/-- Map.set: update in place when the key exists, else append (JS Map
iteration preserves insertion order). -/
def mapSet {β : Type} (m : List ((Int × Int) × β)) (k : Int × Int) (v : β) :
    List ((Int × Int) × β) :=
  match m with
  | [] => [(k, v)]
  | (k1, v1) :: rest => if k1 = k then (k, v) :: rest else (k1, v1) :: mapSet rest k v

/-- One iteration of the row-processing loop (handler lines 68-93):
initialise the month entry if absent, then accumulate the row. -/
def processRow (m : List ((Int × Int) × MonthlySummary)) (r : MonthRow) :
    List ((Int × Int) × MonthlySummary) :=
  let key := rowKey r
  let base := (mapFind m key).getD (freshMonthKey key)
  mapSet m key (applyRow base r)

/-- The comparator (a, b) => year difference, else month difference,
descending: a may precede b exactly when (b.year, b.month) is
lexicographically at most (a.year, a.month). -/
def monthOrder (a b : MonthlySummary) : Prop :=
  if a.year = b.year then b.month ≤ a.month else b.year < a.year

instance : DecidableRel monthOrder := fun a b => by
  unfold monthOrder
  infer_instance

instance : IsTotal MonthlySummary monthOrder :=
  ⟨fun a b => by
    unfold monthOrder
    by_cases h : a.year = b.year
    · rw [if_pos h, if_pos h.symm]
      exact le_total b.month a.month
    · rw [if_neg h, if_neg (Ne.symm h)]
      omega⟩

instance : IsTrans MonthlySummary monthOrder :=
  ⟨fun a b c h1 h2 => by
    unfold monthOrder at *
    split_ifs at * <;> omega⟩

/-- getMonthlySummaries (get_monthly_summaries.ts lines 14-111) as a pure
function. The optional year defaults to the current year of the
invocation time now; the caller-side default for limit is 12. -/
def getMonthlySummaries (store : List Expense) (year : Option Int) (limit : Nat)
    (now : DateT) : List MonthlySummary :=
  let targetYear := year.getD now.year
  let results := monthRows (store.filter (inYearRange targetYear))
  let monthlyMap := results.foldl processRow []
  let monthlySummaries := List.insertionSort monthOrder (monthlyMap.map Prod.snd)
  monthlySummaries.take limit

/-- Invoking the handler without its optional limit argument uses the
TypeScript parameter default of 12. -/
def getMonthlySummariesDefault (store : List Expense) (year : Option Int)
    (now : DateT) : List MonthlySummary :=
  getMonthlySummaries store year 12 now

/-- Follows the claim wording: the date lies within January 1 through
December 31 of the year, both days fully included. -/
def specInYearInclusive (y : Int) (d : DateT) : Bool :=
  decide ((yearStart y).ts ≤ d.ts) &&
  decide (d.ts ≤ (DateT.mk y 12 31 23 59 59 999).ts)

/-- The month summary getMonthlySummaries emits for key k over rows es:
month totals over the month's rows, and a complete category breakdown
whose absent categories hold zeroes. -/
def canonicalMonth (es : List Expense) (k : Int × Int) : MonthlySummary :=
  { year := k.1, month := k.2,
    total_amount := sumAmount (es.filter (inMonth k)),
    total_count := (es.filter (inMonth k)).length,
    by_category := fun c =>
      { total_amount :=
          sumAmount (es.filter (fun e => inMonth k e && decide (e.category = c))),
        count :=
          (es.filter (fun e => inMonth k e && decide (e.category = c))).length } }

lemma mapFind_mapSet_self {β : Type} (m : List ((Int × Int) × β)) (k : Int × Int)
    (v : β) : mapFind (mapSet m k v) k = some v := by
  induction m with
  | nil => simp [mapSet, mapFind]
  | cons x rest ih =>
      obtain ⟨k1, v1⟩ := x
      by_cases h : k1 = k
      · simp [mapSet, mapFind, h]
      · simp [mapSet, mapFind, h, ih]

lemma mapFind_mapSet_ne {β : Type} (m : List ((Int × Int) × β)) (k : Int × Int)
    (v : β) (j : Int × Int) (h : j ≠ k) :
    mapFind (mapSet m k v) j = mapFind m j := by
  induction m with
  | nil =>
      simp only [mapSet, mapFind]
      rw [if_neg (fun hh => h hh.symm)]
  | cons x rest ih =>
      obtain ⟨k1, v1⟩ := x
      by_cases h1 : k1 = k
      · subst h1
        have hj : ¬(k1 = j) := fun hh => h (hh.symm.trans rfl)
        have hset : mapSet ((k1, v1) :: rest) k1 v = (k1, v) :: rest := by
          simp [mapSet]
        rw [hset]
        simp only [mapFind]
        rw [if_neg hj, if_neg hj]
      · have hset : mapSet ((k1, v1) :: rest) k v = (k1, v1) :: mapSet rest k v := by
          simp [mapSet, h1]
        rw [hset]
        simp only [mapFind]
        rw [ih]

lemma mem_of_mapFind {β : Type} (m : List ((Int × Int) × β)) (k : Int × Int)
    (v : β) (h : mapFind m k = some v) : (k, v) ∈ m := by
  induction m with
  | nil => cases h
  | cons x rest ih =>
      obtain ⟨k1, v1⟩ := x
      by_cases h1 : k1 = k
      · rw [mapFind, if_pos h1] at h
        obtain rfl : v1 = v := Option.some.inj h
        subst h1
        exact List.mem_cons_self _ _
      · rw [mapFind, if_neg h1] at h
        exact List.mem_cons_of_mem _ (ih h)

lemma mapFind_of_mem {β : Type} (m : List ((Int × Int) × β)) (k : Int × Int)
    (v : β) (hnd : (m.map Prod.fst).Nodup) (h : (k, v) ∈ m) :
    mapFind m k = some v := by
  induction m with
  | nil => cases h
  | cons x rest ih =>
      obtain ⟨k1, v1⟩ := x
      rw [List.map_cons, List.nodup_cons] at hnd
      rcases List.mem_cons.mp h with heq | hmem
      · cases heq
        simp [mapFind]
      · have h1 : k1 ≠ k := by
          rintro rfl
          exact hnd.1 (List.mem_map.mpr ⟨(k1, v), hmem, rfl⟩)
        simp only [mapFind]
        rw [if_neg h1]
        exact ih hnd.2 hmem

lemma mapSet_keys_mem {β : Type} (m : List ((Int × Int) × β)) (k : Int × Int)
    (v : β) (h : k ∈ m.map Prod.fst) :
    (mapSet m k v).map Prod.fst = m.map Prod.fst := by
  induction m with
  | nil => cases h
  | cons x rest ih =>
      obtain ⟨k1, v1⟩ := x
      by_cases h1 : k1 = k
      · subst h1
        simp [mapSet]
      · rw [List.map_cons] at h
        rcases List.mem_cons.mp h with heq | hmem
        · exact absurd heq.symm h1
        · simp [mapSet, h1, ih hmem]

lemma mapSet_keys_not_mem {β : Type} (m : List ((Int × Int) × β)) (k : Int × Int)
    (v : β) (h : k ∉ m.map Prod.fst) :
    (mapSet m k v).map Prod.fst = m.map Prod.fst ++ [k] := by
  induction m with
  | nil => simp [mapSet]
  | cons x rest ih =>
      obtain ⟨k1, v1⟩ := x
      rw [List.map_cons] at h
      have h1 : k1 ≠ k := fun hh => h (by rw [hh]; exact List.mem_cons_self _ _)
      have h2 : k ∉ rest.map Prod.fst := fun hh => h (List.mem_cons_of_mem _ hh)
      simp [mapSet, h1, ih h2]

lemma mapSet_keys_nodup {β : Type} (m : List ((Int × Int) × β)) (k : Int × Int)
    (v : β) (h : (m.map Prod.fst).Nodup) :
    ((mapSet m k v).map Prod.fst).Nodup := by
  by_cases hk : k ∈ m.map Prod.fst
  · rw [mapSet_keys_mem m k v hk]
    exact h
  · rw [mapSet_keys_not_mem m k v hk]
    simp [List.nodup_append, h, hk]

lemma processRow_keys_nodup (rows : List MonthRow)
    (m : List ((Int × Int) × MonthlySummary)) (h : (m.map Prod.fst).Nodup) :
    (((rows.foldl processRow m)).map Prod.fst).Nodup := by
  induction rows generalizing m with
  | nil => exact h
  | cons r rest ih =>
      rw [List.foldl_cons]
      exact ih _ (mapSet_keys_nodup _ _ _ h)

/-- The value the processing loop holds for a key after a batch of rows:
no row with this key leaves the entry unchanged; otherwise the rows with
this key are folded onto the existing entry or a fresh empty month. -/
lemma foldl_processRow_find (rows : List MonthRow)
    (m : List ((Int × Int) × MonthlySummary)) (k : Int × Int) :
    mapFind (rows.foldl processRow m) k
      = if rows.filter (fun r => decide (rowKey r = k)) = []
        then mapFind m k
        else some ((rows.filter (fun r => decide (rowKey r = k))).foldl applyRow
            ((mapFind m k).getD (freshMonthKey k))) := by
  induction rows generalizing m with
  | nil => simp
  | cons r rest ih =>
      rw [List.foldl_cons]
      by_cases hk : rowKey r = k
      · have hfilter : (r :: rest).filter (fun r => decide (rowKey r = k))
            = r :: rest.filter (fun r => decide (rowKey r = k)) :=
          List.filter_cons_of_pos (by simpa using hk)
        have hfind : mapFind (processRow m r) k
            = some (applyRow ((mapFind m k).getD (freshMonthKey k)) r) := by
          unfold processRow
          rw [hk]
          exact mapFind_mapSet_self _ _ _
        rw [ih (processRow m r), hfilter, if_neg (List.cons_ne_nil _ _)]
        by_cases hrest : rest.filter (fun r => decide (rowKey r = k)) = []
        · rw [if_pos hrest, hfind, hrest]
          rfl
        · rw [if_neg hrest, hfind]
          rfl
      · have hfilter : (r :: rest).filter (fun r => decide (rowKey r = k))
            = rest.filter (fun r => decide (rowKey r = k)) :=
          List.filter_cons_of_neg (by simpa using hk)
        have hfind : mapFind (processRow m r) k = mapFind m k := by
          unfold processRow
          exact mapFind_mapSet_ne _ _ _ _ (fun hh => hk hh.symm)
        rw [ih (processRow m r), hfilter, hfind]

lemma rowKey_monthRowsFor (es : List Expense) (k : Int × Int) (r : MonthRow)
    (h : r ∈ monthRowsFor es k) : rowKey r = k := by
  unfold monthRowsFor at h
  obtain ⟨c, _, rfl⟩ := List.mem_map.mp h
  simp [rowKey, mkRow]

lemma filter_flatMap_of_not_mem (ks : List (Int × Int)) (es : List Expense)
    (k : Int × Int) (hk : k ∉ ks) :
    (ks.flatMap (monthRowsFor es)).filter (fun r => decide (rowKey r = k)) = [] := by
  rw [List.filter_eq_nil_iff]
  intro r hr
  obtain ⟨j, hj, hrj⟩ := List.mem_flatMap.mp hr
  have hkey := rowKey_monthRowsFor es j r hrj
  simp only [decide_eq_true_eq]
  rw [hkey]
  rintro rfl
  exact hk hj

lemma filter_flatMap_segment (ks : List (Int × Int)) (es : List Expense)
    (k : Int × Int) (hnd : ks.Nodup) (hk : k ∈ ks) :
    (ks.flatMap (monthRowsFor es)).filter (fun r => decide (rowKey r = k))
      = monthRowsFor es k := by
  induction ks with
  | nil => cases hk
  | cons k0 ks' ih =>
      rw [List.flatMap_cons, List.filter_append]
      rcases List.nodup_cons.mp hnd with ⟨h0, hnd'⟩
      rcases List.mem_cons.mp hk with rfl | hmem
      · have h1 : (monthRowsFor es k).filter (fun r => decide (rowKey r = k))
            = monthRowsFor es k :=
          List.filter_eq_self.mpr
            (fun r hr => by simp [rowKey_monthRowsFor es k r hr])
        have h2 := filter_flatMap_of_not_mem ks' es k h0
        rw [h1, h2, List.append_nil]
      · have hne : k ≠ k0 := by
          rintro rfl
          exact h0 hmem
        have h1 : (monthRowsFor es k0).filter (fun r => decide (rowKey r = k)) = [] := by
          rw [List.filter_eq_nil_iff]
          intro r hr
          have hkey := rowKey_monthRowsFor es k0 r hr
          simp only [decide_eq_true_eq]
          rw [hkey]
          exact fun hh => hne hh.symm
        rw [h1, List.nil_append, ih hnd' hmem]

/-- Folding the category rows of one month accumulates the cell totals
and assigns each cell into the breakdown. -/
lemma foldl_applyRow_map_mkRow (es : List Expense) (k : Int × Int)
    (cs : List ExpenseCategory) (v : MonthlySummary) :
    (cs.map (mkRow es k)).foldl applyRow v
      = { year := v.year, month := v.month,
          total_amount := v.total_amount
            + (cs.map (fun c => (mkRow es k c).total_amount)).sum,
          total_count := v.total_count
            + (cs.map (fun c => (mkRow es k c).count)).sum,
          by_category := fun c =>
            if c ∈ cs then
              { total_amount := (mkRow es k c).total_amount,
                count := (mkRow es k c).count }
            else v.by_category c } := by
  induction cs generalizing v with
  | nil =>
      simp only [List.map_nil, List.foldl_nil, List.sum_nil, add_zero,
        List.not_mem_nil, if_false, Nat.add_zero]
  | cons c0 cs' ih =>
      rw [List.map_cons, List.foldl_cons, ih (applyRow v (mkRow es k c0))]
      apply MonthlySummary.ext
      · rfl
      · rfl
      · show (applyRow v (mkRow es k c0)).total_amount
            + (cs'.map (fun c => (mkRow es k c).total_amount)).sum
          = v.total_amount
            + ((c0 :: cs').map (fun c => (mkRow es k c).total_amount)).sum
        simp only [applyRow, List.map_cons, List.sum_cons]
        ring
      · show (applyRow v (mkRow es k c0)).total_count
            + (cs'.map (fun c => (mkRow es k c).count)).sum
          = v.total_count + ((c0 :: cs').map (fun c => (mkRow es k c).count)).sum
        simp only [applyRow, List.map_cons, List.sum_cons]
        omega
      · funext c
        by_cases hc : c ∈ cs'
        · simp [hc, List.mem_cons]
        · by_cases hc0 : c = c0
          · subst hc0
            simp [hc, applyRow, mkRow]
          · simp [hc, hc0, applyRow, mkRow]

lemma monthCatFilter (es : List Expense) (k : Int × Int) (c : ExpenseCategory) :
    es.filter (fun e => inMonth k e && decide (e.category = c))
      = (es.filter (inMonth k)).filter (fun e => decide (e.category = c)) := by
  rw [List.filter_filter]
  apply List.filter_congr
  intro x _
  exact Bool.and_comm _ _

lemma monthAnyFilter (es : List Expense) (k : Int × Int) (c : ExpenseCategory) :
    es.any (fun e => inMonth k e && decide (e.category = c))
      = (es.filter (inMonth k)).any (fun e => decide (e.category = c)) := by
  rw [List.any_filter]

/-- Nat version of dropping entries with vanishing summand. -/
lemma sum_map_filter_of_zero_nat {α : Type} (p : α → Bool) (f : α → ℕ) (l : List α)
    (h : ∀ c ∈ l, p c = false → f c = 0) :
    ((l.filter p).map f).sum = (l.map f).sum := by
  induction l with
  | nil => simp
  | cons x t ih =>
      have ht := ih (fun c hc => h c (List.mem_cons_of_mem x hc))
      by_cases hx : p x
      · rw [List.filter_cons_of_pos hx]
        simp [ht]
      · rw [List.filter_cons_of_neg hx]
        rw [List.map_cons, List.sum_cons,
          h x (List.mem_cons_self x t) (by simpa using hx), ht]
        omega

lemma present_count_eq (F : List Expense) :
    ((allCategories.filter (fun c => F.any (fun e => decide (e.category = c)))).map
        (fun c => (F.filter (fun e => decide (e.category = c))).length)).sum
      = F.length := by
  rw [sum_map_filter_of_zero_nat _ _ _ ?_, partitionCount]
  intro c _ hc
  have hnil : F.filter (fun e => decide (e.category = c)) = [] := by
    rw [List.filter_eq_nil_iff]
    intro a ha
    have := List.any_eq_false.mp hc a ha
    simpa using this
  rw [hnil]
  rfl

/-- Every expense category is one of the four enum values. -/
lemma category_mem_all (c : ExpenseCategory) : c ∈ allCategories := by
  cases c <;> decide

/-- Folding the rows of one month from the fresh empty record yields the
canonical month summary. -/
lemma monthRowsFor_fold_canonical (es : List Expense) (k : Int × Int) :
    (monthRowsFor es k).foldl applyRow (freshMonthKey k) = canonicalMonth es k := by
  unfold monthRowsFor
  rw [foldl_applyRow_map_mkRow]
  have hpres : allCategories.filter
        (fun c => es.any (fun e => inMonth k e && decide (e.category = c)))
      = allCategories.filter
        (fun c => (es.filter (inMonth k)).any (fun e => decide (e.category = c))) :=
    List.filter_congr (fun c _ => monthAnyFilter es k c)
  apply MonthlySummary.ext
  · rfl
  · rfl
  · show (freshMonthKey k).total_amount + _ = (canonicalMonth es k).total_amount
    have hmapeq : ((allCategories.filter
          (fun c => es.any (fun e => inMonth k e && decide (e.category = c)))).map
          (fun c => (mkRow es k c).total_amount)).sum
        = ((allCategories.filter
            (fun c => (es.filter (inMonth k)).any
              (fun e => decide (e.category = c)))).map
            (fun c => sumAmount ((es.filter (inMonth k)).filter
              (fun e => decide (e.category = c))))).sum := by
      rw [hpres]
      congr 1
      apply List.map_congr_left
      intro c _
      show sumAmount (es.filter (fun e => inMonth k e && decide (e.category = c))) = _
      rw [monthCatFilter]
    rw [hmapeq, present_sum_eq]
    show (0 : ℚ) + sumAmount (es.filter (inMonth k)) = sumAmount (es.filter (inMonth k))
    ring
  · show (freshMonthKey k).total_count + _ = (canonicalMonth es k).total_count
    have hmapeq : ((allCategories.filter
          (fun c => es.any (fun e => inMonth k e && decide (e.category = c)))).map
          (fun c => (mkRow es k c).count)).sum
        = ((allCategories.filter
            (fun c => (es.filter (inMonth k)).any
              (fun e => decide (e.category = c)))).map
            (fun c => ((es.filter (inMonth k)).filter
              (fun e => decide (e.category = c))).length)).sum := by
      rw [hpres]
      congr 1
      apply List.map_congr_left
      intro c _
      show (es.filter (fun e => inMonth k e && decide (e.category = c))).length = _
      rw [monthCatFilter]
    rw [hmapeq, present_count_eq]
    show 0 + (es.filter (inMonth k)).length = (es.filter (inMonth k)).length
    omega
  · funext c
    dsimp only
    by_cases hc : c ∈ allCategories.filter
        (fun c => es.any (fun e => inMonth k e && decide (e.category = c)))
    · rw [if_pos hc]
      rfl
    · rw [if_neg hc]
      have hany : es.any (fun e => inMonth k e && decide (e.category = c)) = false := by
        by_contra hh
        exact hc (List.mem_filter.mpr
          ⟨category_mem_all c, by simpa using eq_true_of_ne_false hh⟩)
      have hnil : es.filter (fun e => inMonth k e && decide (e.category = c)) = [] := by
        rw [List.filter_eq_nil_iff]
        intro a ha
        have := List.any_eq_false.mp hany a ha
        simpa using this
      show createEmptyCategoryRecord c = (canonicalMonth es k).by_category c
      unfold canonicalMonth
      dsimp only
      rw [hnil]
      rfl

/-- The month map built by the processing loop holds exactly the canonical
summary for each month key present among the rows. -/
lemma monthlyMap_find (es : List Expense) (k : Int × Int) :
    mapFind ((monthRows es).foldl processRow []) k
      = if k ∈ monthKeys es then some (canonicalMonth es k) else none := by
  rw [foldl_processRow_find]
  by_cases hk : k ∈ monthKeys es
  · have hseg : (monthRows es).filter (fun r => decide (rowKey r = k))
        = monthRowsFor es k :=
      filter_flatMap_segment (monthKeys es) es k (List.nodup_dedup _) hk
    have hne : monthRowsFor es k ≠ [] := by
      obtain ⟨e, he, hke⟩ := List.mem_map.mp (List.mem_dedup.mp hk)
      intro h0
      unfold monthRowsFor at h0
      rw [List.map_eq_nil_iff] at h0
      have hcmem : e.category ∈ allCategories.filter
          (fun c => es.any (fun x => inMonth k x && decide (x.category = c))) := by
        apply List.mem_filter.mpr
        refine ⟨category_mem_all _, ?_⟩
        apply List.any_eq_true.mpr
        refine ⟨e, he, ?_⟩
        have h1 : e.date.year = k.1 := by rw [← hke]
        have h2 : e.date.month = k.2 := by rw [← hke]
        simp [inMonth, h1, h2]
      rw [h0] at hcmem
      cases hcmem
    rw [hseg, if_neg hne, if_pos hk]
    have hfind : mapFind ([] : List ((Int × Int) × MonthlySummary)) k = none := rfl
    rw [hfind]
    simp only [Option.getD_none]
    rw [monthRowsFor_fold_canonical]
  · have hseg : (monthRows es).filter (fun r => decide (rowKey r = k)) = [] :=
      filter_flatMap_of_not_mem (monthKeys es) es k hk
    rw [hseg, if_pos rfl, if_neg hk]
    rfl

/-- The values of the month map are exactly the canonical summaries of the
months present among the rows. -/
lemma monthlyValues_mem (es : List Expense) (v : MonthlySummary) :
    v ∈ ((monthRows es).foldl processRow []).map Prod.snd
      ↔ ∃ k ∈ monthKeys es, v = canonicalMonth es k := by
  have hnd : (((monthRows es).foldl processRow []).map Prod.fst).Nodup :=
    processRow_keys_nodup _ [] (by simp)
  constructor
  · intro hv
    obtain ⟨⟨k, v1⟩, hmem, hsnd⟩ := List.mem_map.mp hv
    have hfind := mapFind_of_mem _ k v1 hnd hmem
    rw [monthlyMap_find] at hfind
    by_cases hk : k ∈ monthKeys es
    · rw [if_pos hk] at hfind
      refine ⟨k, hk, ?_⟩
      rw [← hsnd]
      exact (Option.some.inj hfind).symm
    · rw [if_neg hk] at hfind
      cases hfind
  · rintro ⟨k, hk, rfl⟩
    have hfind : mapFind ((monthRows es).foldl processRow []) k
        = some (canonicalMonth es k) := by
      rw [monthlyMap_find, if_pos hk]
    exact List.mem_map.mpr ⟨(k, canonicalMonth es k), mem_of_mapFind _ k _ hfind, rfl⟩

/-- Every emitted month summary is the canonical summary of a month key
present among the selected rows. -/
lemma getMonthlySummaries_mem (store : List Expense) (year : Option Int)
    (limit : Nat) (now : DateT) (ms : MonthlySummary)
    (h : ms ∈ getMonthlySummaries store year limit now) :
    ∃ k ∈ monthKeys (store.filter (inYearRange (year.getD now.year))),
      ms = canonicalMonth (store.filter (inYearRange (year.getD now.year))) k := by
  unfold getMonthlySummaries at h
  have h1 := (List.take_sublist _ _).mem h
  have h2 := (List.perm_insertionSort monthOrder _).mem_iff.mp h1
  exact (monthlyValues_mem _ ms).mp h2

lemma getMonthlySummaries_def (store : List Expense) (year : Option Int)
    (limit : Nat) (now : DateT) :
    getMonthlySummaries store year limit now
      = (List.insertionSort monthOrder
          (((monthRows (store.filter (inYearRange (year.getD now.year)))).foldl
            processRow []).map Prod.snd)).take limit := rfl

lemma mapFind_eq_none_iff {β : Type} (m : List ((Int × Int) × β)) (k : Int × Int) :
    mapFind m k = none ↔ k ∉ m.map Prod.fst := by
  induction m with
  | nil => simp [mapFind]
  | cons x rest ih =>
      obtain ⟨k1, v1⟩ := x
      rw [List.map_cons]
      by_cases h : k1 = k
      · subst h
        constructor
        · intro hf
          simp [mapFind] at hf
        · intro hm
          exact absurd (List.mem_cons_self _ _) hm
      · have hstep : mapFind ((k1, v1) :: rest) k = mapFind rest k := by
          simp [mapFind, h]
        rw [hstep, ih, List.mem_cons]
        constructor
        · intro h1 h2
          rcases h2 with h2 | h2
          · exact h h2.symm
          · exact h1 h2
        · intro h1 h2
          exact h1 (Or.inr h2)

/-- The month map holds one entry per month present among the rows. -/
lemma monthlyMap_length (es : List Expense) :
    ((monthRows es).foldl processRow []).length = (monthKeys es).length := by
  have hnd : (((monthRows es).foldl processRow []).map Prod.fst).Nodup :=
    processRow_keys_nodup _ [] (by simp)
  have hmem : ∀ k, k ∈ ((monthRows es).foldl processRow []).map Prod.fst
      ↔ k ∈ monthKeys es := by
    intro k
    constructor
    · intro hk
      by_contra hkk
      have hnone : mapFind ((monthRows es).foldl processRow []) k = none := by
        rw [monthlyMap_find, if_neg hkk]
      exact ((mapFind_eq_none_iff _ k).mp hnone) hk
    · intro hk
      by_contra hkk
      have hnone : mapFind ((monthRows es).foldl processRow []) k = none :=
        (mapFind_eq_none_iff _ k).mpr hkk
      rw [monthlyMap_find, if_pos hk] at hnone
      cases hnone
  have hperm : List.Perm (((monthRows es).foldl processRow []).map Prod.fst)
      (monthKeys es) :=
    (List.perm_ext_iff_of_nodup hnd (List.nodup_dedup _)).mpr hmem
  rw [← List.length_map ((monthRows es).foldl processRow []) Prod.fst]
  exact hperm.length_eq

/-- When the limit does not truncate, the canonical summary of every month
present among the selected rows appears in the output. -/
lemma canonicalMonth_mem_getMonthlySummaries (store : List Expense)
    (year : Option Int) (limit : Nat) (now : DateT) (k : Int × Int)
    (hk : k ∈ monthKeys (store.filter (inYearRange (year.getD now.year))))
    (hlim : (monthKeys (store.filter (inYearRange (year.getD now.year)))).length
      ≤ limit) :
    canonicalMonth (store.filter (inYearRange (year.getD now.year))) k
      ∈ getMonthlySummaries store year limit now := by
  have hval : canonicalMonth (store.filter (inYearRange (year.getD now.year))) k
      ∈ ((monthRows (store.filter (inYearRange (year.getD now.year)))).foldl
        processRow []).map Prod.snd :=
    (monthlyValues_mem _ _).mpr ⟨k, hk, rfl⟩
  have hsorted := (List.perm_insertionSort monthOrder _).mem_iff.mpr hval
  rw [getMonthlySummaries_def, List.take_of_length_le ?_]
  · exact hsorted
  · rw [List.length_insertionSort, List.length_map, monthlyMap_length]
    exact hlim

/-- C3: every month entry of getMonthlySummaries carries a by_category
breakdown that is total over the four categories — a category with no
activity in that month holds zeroes — and the four per-category
total_amount values sum exactly to the month's total_amount. -/
theorem claim_monthly_completeness (store : List Expense) (year : Option Int)
    (limit : Nat) (now : DateT) :
    ∀ ms ∈ getMonthlySummaries store year limit now,
      (allCategories.map (fun c => (ms.by_category c).total_amount)).sum
          = ms.total_amount
      ∧ (∀ c : ExpenseCategory,
          (store.filter (inYearRange (year.getD now.year))).filter
              (fun e => inMonth (ms.year, ms.month) e && decide (e.category = c)) = [] →
            ms.by_category c = { total_amount := 0, count := 0 }) := by
  intro ms hms
  obtain ⟨k, hk, rfl⟩ := getMonthlySummaries_mem store year limit now ms hms
  constructor
  · have hmap : allCategories.map
        (fun c => ((canonicalMonth
          (store.filter (inYearRange (year.getD now.year))) k).by_category c).total_amount)
        = allCategories.map
          (fun c => sumAmount (((store.filter (inYearRange (year.getD now.year))).filter
            (inMonth k)).filter (fun e => decide (e.category = c)))) := by
      apply List.map_congr_left
      intro c _
      show sumAmount ((store.filter (inYearRange (year.getD now.year))).filter
        (fun e => inMonth k e && decide (e.category = c))) = _
      rw [monthCatFilter]
    rw [hmap, partitionAmount]
    rfl
  · intro c hc
    have hc' : (store.filter (inYearRange (year.getD now.year))).filter
        (fun e => inMonth k e && decide (e.category = c)) = [] := hc
    show (canonicalMonth (store.filter (inYearRange (year.getD now.year))) k).by_category c
      = { total_amount := 0, count := 0 }
    unfold canonicalMonth
    dsimp only
    rw [hc']
    rfl

theorem claim_monthly_completeness_witness :
    ∃ ms ∈ getMonthlySummaries [exEat] (some 2024) 12 nowA,
      (allCategories.map (fun c => (ms.by_category c).total_amount)).sum
          = ms.total_amount
      ∧ ms.by_category ExpenseCategory.shop = { total_amount := 0, count := 0 } := by
  have hlen : (getMonthlySummaries [exEat] (some 2024) 12 nowA).length = 1 := rfl
  have hne : getMonthlySummaries [exEat] (some 2024) 12 nowA ≠ [] := by
    intro h
    rw [h] at hlen
    cases hlen
  refine ⟨(getMonthlySummaries [exEat] (some 2024) 12 nowA).head hne,
    List.head_mem hne, ?_, ?_⟩
  · exact (claim_monthly_completeness [exEat] (some 2024) 12 nowA _
      (List.head_mem hne)).1
  · exact (claim_monthly_completeness [exEat] (some 2024) 12 nowA _
      (List.head_mem hne)).2 ExpenseCategory.shop rfl

/-- C7: getCategoryTotals results are non-increasing in total_amount, and
getMonthlySummaries results are non-increasing lexicographically in
(year, month). -/
theorem claim_result_ordering (store : List Expense)
    (startDate endDate : Option DateT) (year : Option Int) (limit : Nat)
    (now : DateT) :
    (getCategoryTotals store startDate endDate).Pairwise
        (fun a b => b.total_amount ≤ a.total_amount)
    ∧ (getMonthlySummaries store year limit now).Pairwise
        (fun a b => b.year < a.year ∨ (b.year = a.year ∧ b.month ≤ a.month)) := by
  constructor
  · rw [getCategoryTotals_def]
    exact List.sorted_insertionSort ctGE _
  · rw [getMonthlySummaries_def]
    apply List.Pairwise.imp ?_
      (List.Pairwise.sublist (List.take_sublist _ _)
        (List.sorted_insertionSort monthOrder _))
    intro a b hab
    unfold monthOrder at hab
    by_cases hy : a.year = b.year
    · rw [if_pos hy] at hab
      exact Or.inr ⟨hy.symm, hab⟩
    · rw [if_neg hy] at hab
      exact Or.inl hab

/-- A date 500 milliseconds into the last second of December 31, 2024. -/
def lateDate : DateT :=
  { year := 2024, month := 12, day := 31, hour := 23, minute := 59, second := 59,
    ms := 500 }

def lateExpense : Expense :=
  { id := 9, amount := 10, date := lateDate, description := "december tail",
    category := ExpenseCategory.others, payment_method := PaymentMethod.cash,
    created_at := lateDate, updated_at := lateDate }

/-- C8 counterexample: an expense 500 milliseconds into the last second of
December 31 lies within the year (January 1 through December 31
inclusive), yet getMonthlySummaries aggregates nothing for it: the
query's upper bound is December 31 at 23:59:59.000, so the claim's
inclusive-December-31 scope does not hold. -/
theorem claim_monthly_scope_counterexample :
    specInYearInclusive 2024 lateExpense.date = true
      ∧ getMonthlySummaries [lateExpense] (some 2024) 12 nowA = [] := by
  constructor
  · decide
  · rfl

/-- C8 amended: getMonthlySummaries aggregates exactly the expenses with
date between January 1 00:00:00.000 and December 31 23:59:59.000 of the
target year (the final second's sub-second tail is excluded); the target
year defaults to the current year of the invocation time; every emitted
month contains at least one such expense and carries totals over exactly
that month's in-range expenses; the output holds min(limit, number of
such months) entries, so it is truncated to at most limit of them; every
month containing an in-range expense appears in the output whenever the
number of such months is within the limit; and omitting limit uses the
default 12. -/
theorem claim_monthly_scope_amended (store : List Expense) (year : Option Int)
    (limit : Nat) (now : DateT) :
    (∀ ms ∈ getMonthlySummaries store year limit now,
        (∃ e ∈ store, inYearRange (year.getD now.year) e
          ∧ e.date.year = ms.year ∧ e.date.month = ms.month)
      ∧ ms.total_amount
          = sumAmount ((store.filter (inYearRange (year.getD now.year))).filter
            (inMonth (ms.year, ms.month)))
      ∧ ms.total_count
          = ((store.filter (inYearRange (year.getD now.year))).filter
            (inMonth (ms.year, ms.month))).length)
    ∧ (getMonthlySummaries store year limit now).length ≤ limit
    ∧ (getMonthlySummaries store year limit now).length
        = min limit (monthKeys (store.filter (inYearRange (year.getD now.year)))).length
    ∧ (∀ e ∈ store, inYearRange (year.getD now.year) e →
        (monthKeys (store.filter (inYearRange (year.getD now.year)))).length ≤ limit →
        ∃ ms ∈ getMonthlySummaries store year limit now,
          ms.year = e.date.year ∧ ms.month = e.date.month)
    ∧ getMonthlySummaries store none limit now
        = getMonthlySummaries store (some now.year) limit now
    ∧ getMonthlySummariesDefault store year now
        = getMonthlySummaries store year 12 now := by
  refine ⟨?_, ?_, ?_, ?_, rfl, rfl⟩
  · intro ms hms
    obtain ⟨k, hk, rfl⟩ := getMonthlySummaries_mem store year limit now ms hms
    refine ⟨?_, rfl, rfl⟩
    obtain ⟨e, he, hke⟩ := List.mem_map.mp (List.mem_dedup.mp hk)
    have hes := List.mem_filter.mp he
    refine ⟨e, hes.1, hes.2, ?_, ?_⟩
    · show e.date.year = k.1
      rw [← hke]
    · show e.date.month = k.2
      rw [← hke]
  · rw [getMonthlySummaries_def, List.length_take]
    exact min_le_left _ _
  · rw [getMonthlySummaries_def, List.length_take, List.length_insertionSort,
      List.length_map, monthlyMap_length]
  · intro e he hin hlim
    have hk : (e.date.year, e.date.month)
        ∈ monthKeys (store.filter (inYearRange (year.getD now.year))) :=
      List.mem_dedup.mpr
        (List.mem_map.mpr ⟨e, List.mem_filter.mpr ⟨he, hin⟩, rfl⟩)
    exact ⟨canonicalMonth (store.filter (inYearRange (year.getD now.year)))
        (e.date.year, e.date.month),
      canonicalMonth_mem_getMonthlySummaries store year limit now _ hk hlim,
      rfl, rfl⟩

theorem claim_monthly_scope_amended_witness :
    (∃ ms ∈ getMonthlySummaries [exEat] (some 2024) 12 nowA,
        (∃ e ∈ [exEat], inYearRange 2024 e
          ∧ e.date.year = ms.year ∧ e.date.month = ms.month)
      ∧ ms.total_amount
          = sumAmount (([exEat].filter (inYearRange 2024)).filter
            (inMonth (ms.year, ms.month))))
    ∧ (getMonthlySummaries [exEat] (some 2024) 12 nowA).length ≤ 12
    ∧ (∃ ms ∈ getMonthlySummaries [exEat] (some 2024) 12 nowA,
        ms.year = exEat.date.year ∧ ms.month = exEat.date.month)
    ∧ getMonthlySummariesDefault [exEat] (some 2024) nowA
        = getMonthlySummaries [exEat] (some 2024) 12 nowA := by
  have hlen : (getMonthlySummaries [exEat] (some 2024) 12 nowA).length = 1 := rfl
  have hne : getMonthlySummaries [exEat] (some 2024) 12 nowA ≠ [] := by
    intro h
    rw [h] at hlen
    cases hlen
  refine ⟨⟨(getMonthlySummaries [exEat] (some 2024) 12 nowA).head hne,
    List.head_mem hne, ?_, ?_⟩, ?_, ?_, ?_⟩
  · exact ((claim_monthly_scope_amended [exEat] (some 2024) 12 nowA).1 _
      (List.head_mem hne)).1
  · exact ((claim_monthly_scope_amended [exEat] (some 2024) 12 nowA).1 _
      (List.head_mem hne)).2.1
  · exact (claim_monthly_scope_amended [exEat] (some 2024) 12 nowA).2.1
  · exact (claim_monthly_scope_amended [exEat] (some 2024) 12 nowA).2.2.2.1
      exEat (List.mem_cons_self _ _) (by decide) (by decide)
  · exact (claim_monthly_scope_amended [exEat] (some 2024) 12 nowA).2.2.2.2.2

end ExpenseTracker
